import Mathlib

/-!
A verification development for the Si514 clock-synthesizer driver (`py514.py`).

The driver's numeric core is shallowly embedded here:

* `calculate_ls_div`, `calculate_hs_div`, `calculate_m`, `calculate_lp` are the
  Divider Solver and Loop-Filter Selector routines;
* `pack5` / `unpack_m_int` / `unpack_m_frac` are the byte-level register
  encodings used by `set_freq_large` (lines 196-201) and the read-back of
  `set_freq_small` (lines 243-244);
* `set_freq_small` models the incremental frequency-change path as a pure
  function from the cached driver state and the five read-back register bytes
  to the issued register writes or the mismatch error.

Python 2 integer arithmetic on the involved quantities is plain unbounded
integer arithmetic (`/` on non-negative ints is floor division), so `ℕ` with
`/` and `%` is a faithful carrier.  The only floating-point operation whose
rounding can be observed in the integer results is the double-precision
division inside `calculate_m`; it is modelled exactly by `roundDouble`,
IEEE-754 binary64 round-to-nearest, ties-to-even (exponent unbounded, which
coincides with binary64 on the normal, non-overflowing range used here).
-/

namespace Py514

/-! ### Constants (from `__init__`) -/

def FXO : ℕ := 31980000
def FVCO_MIN : ℕ := 2080000000
def FVCO_MAX : ℕ := 2500000000
def HS_DIV_MIN : ℕ := 10
def HS_DIV_MAX : ℕ := 1022
def MIN_FREQ : ℕ := 100000
def MAX_FREQ : ℕ := 250000000
def REG_M_FRAC1 : ℕ := 5
def REG_M_FRAC2 : ℕ := 6
def REG_M_FRAC3 : ℕ := 7
def REG_M_INT_FRAC : ℕ := 8
def REG_M_INT : ℕ := 9
def REG_RESET : ℕ := 128

/-! ### `calculate_ls_div` (lines 282-308)

The Python body carries mutable `(hsdiv_freq, ls_div)` through five
sequential `if` statements; each pair below is that state after one
statement. -/

def calculate_ls_div (freq : ℕ) : ℕ :=
  let p0 : ℕ × ℕ := (HS_DIV_MAX * freq, 0)
  let p1 := if p0.1 < FVCO_MIN then (p0.1 * 2, 1) else p0
  let p2 := if p1.1 < FVCO_MIN then (p1.1 * 2, 2) else p1
  let p3 := if p2.1 < FVCO_MIN then (p2.1 * 2, 3) else p2
  let p4 := if p3.1 < FVCO_MIN then (p3.1 * 2, 4) else p3
  let p5 := if p4.1 < FVCO_MIN then (p4.1 * 2, 5) else p4
  p5.2

/-! ### `calculate_hs_div` (lines 310-328)

State is the mutable pair `(hs_min, hs_max)`; the loop body runs exactly
ten times.  In Python 2, `10 / 2 = 5`, `1022 / 2 = 511` and
`2080000000 / 2 = 1040000000` are exact integer divisions. -/

def hsStep (lsdiv_freq : ℕ) (p : ℕ × ℕ) : ℕ × ℕ :=
  let hs_div := (p.1 + p.2) / 2
  if lsdiv_freq * hs_div ≥ FVCO_MIN / 2 then (p.1, hs_div) else (hs_div, p.2)

def hsLoop (lsdiv_freq : ℕ) : ℕ → ℕ × ℕ → ℕ × ℕ
  | 0, p => p
  | n + 1, p => hsLoop lsdiv_freq n (hsStep lsdiv_freq p)

def calculate_hs_div (freq ls : ℕ) : ℕ :=
  let ls_div := 1 <<< ls
  let lsdiv_freq := ls_div * freq
  2 * (hsLoop lsdiv_freq 10 (HS_DIV_MIN / 2, HS_DIV_MAX / 2)).2

/-! ### Register packing (lines 196-201, identical bytes at lines 258-263)
and the small-change read-back (lines 243-244) -/

def pack5 (m_int m_frac : ℕ) : ℕ × ℕ × ℕ × ℕ × ℕ :=
  let reg05 := (m_frac >>> 0) &&& 0x00FF
  let reg06 := (m_frac >>> 8) &&& 0x00FF
  let reg07 := (m_frac >>> 16) &&& 0x00FF
  let reg08 := ((m_int >>> 0) &&& 0x0007) <<< 5 + ((m_frac >>> 24) &&& 0x001F)
  let reg09 := (m_int >>> 3) &&& 0x003F
  (reg05, reg06, reg07, reg08, reg09)

def unpack_m_frac (reg05 reg06 reg07 reg08 : ℕ) : ℕ :=
  ((reg08 &&& 0x1F) <<< 24) + (reg07 <<< 16) + (reg06 <<< 8) + (reg05 <<< 0)

def unpack_m_int (reg08 reg09 : ℕ) : ℕ :=
  ((reg08 >>> 5) &&& 0x07) + ((reg09 &&& 0x1F) <<< 3)

end Py514
namespace Py514

theorem ls_div_char (f : ℕ) (hf : 100000 ≤ f) :
    calculate_ls_div f ≤ 5 ∧
    2080000000 ≤ 1022 * 2 ^ calculate_ls_div f * f ∧
    ∀ e < calculate_ls_div f, 1022 * 2 ^ e * f < 2080000000 := by
  by_cases h1 : 1022 * f < 2080000000
  · by_cases h2 : 1022 * f * 2 < 2080000000
    · by_cases h3 : 1022 * f * 2 * 2 < 2080000000
      · by_cases h4 : 1022 * f * 2 * 2 * 2 < 2080000000
        · by_cases h5 : 1022 * f * 2 * 2 * 2 * 2 < 2080000000
          · have : calculate_ls_div f = 5 := by
              simp [calculate_ls_div, HS_DIV_MAX, FVCO_MIN, h1, h2, h3, h4, h5]
            rw [this]
            refine ⟨by norm_num, by norm_num; omega, ?_⟩
            intro e he
            interval_cases e <;> (norm_num; omega)
          · have : calculate_ls_div f = 4 := by
              simp [calculate_ls_div, HS_DIV_MAX, FVCO_MIN, h1, h2, h3, h4, h5]
            rw [this]
            refine ⟨by norm_num, by norm_num; omega, ?_⟩
            intro e he
            interval_cases e <;> (norm_num; omega)
        · have : calculate_ls_div f = 3 := by
            simp [calculate_ls_div, HS_DIV_MAX, FVCO_MIN, h1, h2, h3, h4]
          rw [this]
          refine ⟨by norm_num, by norm_num; omega, ?_⟩
          intro e he
          interval_cases e <;> (norm_num; omega)
      · have : calculate_ls_div f = 2 := by
          simp [calculate_ls_div, HS_DIV_MAX, FVCO_MIN, h1, h2, h3]
        rw [this]
        refine ⟨by norm_num, by norm_num; omega, ?_⟩
        intro e he
        interval_cases e <;> (norm_num; omega)
    · have : calculate_ls_div f = 1 := by
        simp [calculate_ls_div, HS_DIV_MAX, FVCO_MIN, h1, h2]
      rw [this]
      refine ⟨by norm_num, by norm_num; omega, ?_⟩
      intro e he
      interval_cases e
      norm_num
      omega
  · have : calculate_ls_div f = 0 := by
      simp [calculate_ls_div, HS_DIV_MAX, FVCO_MIN, h1]
    rw [this]
    refine ⟨by norm_num, by norm_num; omega, ?_⟩
    intro e he
    omega

end Py514
namespace Py514

lemma fvco_half : FVCO_MIN / 2 = 1040000000 := by norm_num [FVCO_MIN]

/-- One step of the search keeps the window `(a, b)` bracketing the least
half-divider meeting the VCO floor: the lower end keeps failing, the upper end
keeps succeeding, and the width at most halves. -/
lemma hsLoop_inv (L : ℕ) :
    ∀ n a b, ¬ 1040000000 ≤ L * a → 1040000000 ≤ L * b → a < b → b - a ≤ 2 ^ n →
      let p := hsLoop L n (a, b)
      a ≤ p.1 ∧ p.2 ≤ b ∧ ¬ 1040000000 ≤ L * p.1 ∧ 1040000000 ≤ L * p.2 ∧
        p.2 = p.1 + 1 := by
  intro n
  induction n with
  | zero =>
    intro a b ha hb hab hgap
    simp only [hsLoop]
    refine ⟨le_refl _, le_refl _, ha, hb, ?_⟩
    simp only [pow_zero] at hgap
    omega
  | succ n ih =>
    intro a b ha hb hab hgap
    have hpow : (2:ℕ) ^ (n + 1) = 2 * 2 ^ n := by ring
    rw [hpow] at hgap
    simp only [hsLoop, hsStep, fvco_half, ge_iff_le]
    by_cases hc : 1040000000 ≤ L * ((a + b) / 2)
    · rw [if_pos hc]
      have hane : a ≠ (a + b) / 2 := fun h => ha (h ▸ hc)
      have h1 : a < (a + b) / 2 := lt_of_le_of_ne (by omega) hane
      have h2 : (a + b) / 2 - a ≤ 2 ^ n := by omega
      obtain ⟨q1, q2, q3, q4, q5⟩ := ih a ((a + b) / 2) ha hc h1 h2
      exact ⟨q1, le_trans q2 (by omega), q3, q4, q5⟩
    · rw [if_neg hc]
      have h1 : (a + b) / 2 < b := by omega
      have h2 : b - (a + b) / 2 ≤ 2 ^ n := by omega
      obtain ⟨q1, q2, q3, q4, q5⟩ := ih ((a + b) / 2) b hc hb h1 h2
      exact ⟨le_trans (by omega) q1, q2, q3, q4, q5⟩

lemma hsStep_true (L b : ℕ) (h5 : 1040000000 ≤ L * 5) (hb : 5 ≤ b) :
    hsStep L (5, b) = (5, (5 + b) / 2) := by
  unfold hsStep
  simp only [fvco_half, ge_iff_le]
  rw [if_pos]
  exact le_trans h5 (Nat.mul_le_mul_left _ (by omega))

/-- When even the smallest half-divider already meets the VCO floor, the ten
iterations walk the upper end down to `5`. -/
lemma hsLoop_cond5 (L : ℕ) (h5 : 1040000000 ≤ L * 5) :
    hsLoop L 10 (5, 511) = (5, 5) := by
  have e1 := hsStep_true L 511 h5 (by norm_num)
  have e2 := hsStep_true L 258 h5 (by norm_num)
  have e3 := hsStep_true L 131 h5 (by norm_num)
  have e4 := hsStep_true L 68 h5 (by norm_num)
  have e5 := hsStep_true L 36 h5 (by norm_num)
  have e6 := hsStep_true L 20 h5 (by norm_num)
  have e7 := hsStep_true L 12 h5 (by norm_num)
  have e8 := hsStep_true L 8 h5 (by norm_num)
  have e9 := hsStep_true L 6 h5 (by norm_num)
  have e10 := hsStep_true L 5 h5 (by norm_num)
  norm_num at e1 e2 e3 e4 e5 e6 e7 e8 e9 e10
  simp [hsLoop, e1, e2, e3, e4, e5, e6, e7, e8, e9, e10]

/-- The ten-iteration search returns the least half-divider `h ≥ 5` with
`L * h` at or above half the VCO floor (given that `511` qualifies), and the
result never exceeds `511`. -/
lemma hsLoop_least (L : ℕ) (h511 : 1040000000 ≤ L * 511) :
    IsLeast {h : ℕ | 5 ≤ h ∧ 1040000000 ≤ L * h} (hsLoop L 10 (5, 511)).2 ∧
      (hsLoop L 10 (5, 511)).2 ≤ 511 := by
  by_cases h5 : 1040000000 ≤ L * 5
  · rw [hsLoop_cond5 L h5]
    exact ⟨⟨⟨le_refl _, h5⟩, fun h hh => hh.1⟩, by norm_num⟩
  · obtain ⟨q1, q2, q3, q4, q5⟩ :=
      hsLoop_inv L 10 5 511 h5 h511 (by norm_num) (by norm_num)
    set p := hsLoop L 10 (5, 511)
    refine ⟨⟨⟨by omega, q4⟩, ?_⟩, q2⟩
    intro h hh
    by_contra hlt
    push_neg at hlt
    have : L * h ≤ L * p.1 := Nat.mul_le_mul_left _ (by omega)
    exact q3 (le_trans hh.2 this)

end Py514
namespace Py514

lemma calculate_hs_div_eq (f ls : ℕ) :
    calculate_hs_div f ls = 2 * (hsLoop (2 ^ ls * f) 10 (5, 511)).2 := by
  unfold calculate_hs_div
  norm_num [Nat.shiftLeft_eq, HS_DIV_MIN, HS_DIV_MAX]

/-- The solver pipeline: the returned high-speed divider is twice the least
half-divider `j ∈ [5, 511]` with `2^ls · f · j` at or above half the VCO
floor. -/
lemma hs_div_spec (f : ℕ) (h1 : 100000 ≤ f) :
    ∃ j, calculate_hs_div f (calculate_ls_div f) = 2 * j ∧ 5 ≤ j ∧ j ≤ 511 ∧
      1040000000 ≤ 2 ^ calculate_ls_div f * f * j ∧
      ∀ k, 5 ≤ k → 1040000000 ≤ 2 ^ calculate_ls_div f * f * k → j ≤ k := by
  have h511 : 1040000000 ≤ 2 ^ calculate_ls_div f * f * 511 := by
    obtain ⟨-, q2, -⟩ := ls_div_char f h1
    have he : 1022 * 2 ^ calculate_ls_div f * f =
        2 * (2 ^ calculate_ls_div f * f * 511) := by ring
    omega
  obtain ⟨⟨⟨hj5, hjc⟩, hmin⟩, hj511⟩ := hsLoop_least (2 ^ calculate_ls_div f * f) h511
  refine ⟨(hsLoop (2 ^ calculate_ls_div f * f) 10 (5, 511)).2,
    calculate_hs_div_eq f (calculate_ls_div f), hj5, hj511, hjc, ?_⟩
  intro k hk5 hkc
  exact hmin ⟨hk5, hkc⟩

/-- In the frequency ranges of interest the product `L · j` of the scaled
frequency with the minimal qualifying half-divider stays at or below
1.25 GHz. -/
lemma hs_half_upper (L j : ℕ) (hL : L ≤ 170000000 ∨ 511 * L ≤ 2079999999)
    (hj5 : 5 ≤ j) (hjc : 1040000000 ≤ L * j)
    (hmin : ∀ k, 5 ≤ k → 1040000000 ≤ L * k → j ≤ k) : L * j ≤ 1250000000 := by
  rcases Nat.lt_or_ge j 6 with h6 | h6
  · have hj' : j = 5 := by omega
    subst hj'
    rcases hL with hA | hB
    · omega
    · omega
  · obtain ⟨m, rfl⟩ : ∃ m, j = m + 1 := ⟨j - 1, by omega⟩
    have hnc : ¬ 1040000000 ≤ L * m := fun hc =>
      absurd (hmin m (by omega) hc) (by omega)
    have hsplit : L * (m + 1) = L * m + L := by ring
    rcases hL with hA | hB
    · omega
    · omega

/-- C5: for every frequency `f` in the solver's supported range
`[100000, 250000000]`, `calculate_ls_div f` is the smallest base divider
`d ∈ {0,…,5}` with `1022 · 2^d · f ≥ 2080000000`. -/
theorem claim_C5_ls_div_least (f : ℕ) (h1 : 100000 ≤ f) (h2' : f ≤ 250000000) :
    IsLeast {d : ℕ | 2080000000 ≤ 1022 * 2 ^ d * f} (calculate_ls_div f) ∧
      calculate_ls_div f ≤ 5 := by
  obtain ⟨q1, q2, q3⟩ := ls_div_char f h1
  refine ⟨⟨q2, ?_⟩, q1⟩
  intro d hd
  by_contra h
  push_neg at h
  exact absurd hd (not_le.mpr (q3 d h))

theorem claim_C5_witness :
    IsLeast {d : ℕ | 2080000000 ≤ 1022 * 2 ^ d * 10000000} (calculate_ls_div 10000000) ∧
      calculate_ls_div 10000000 ≤ 5 :=
  claim_C5_ls_div_least 10000000 (by norm_num) (by norm_num)

/-- C6: for `f` in the supported range and `ls = calculate_ls_div f`, the
ten-iteration binary search `calculate_hs_div f ls` returns the smallest even
high-speed divider `h ∈ [10, 1022]` with `2^ls · h · f ≥ 2080000000`. -/
theorem claim_C6_hs_div_least (f : ℕ) (h1 : 100000 ≤ f) (h2' : f ≤ 170000000) :
    IsLeast {h : ℕ | h % 2 = 0 ∧ 10 ≤ h ∧ h ≤ 1022 ∧
        2080000000 ≤ 2 ^ calculate_ls_div f * h * f}
      (calculate_hs_div f (calculate_ls_div f)) := by
  obtain ⟨j, hj, hj5, hj511, hjc, hmin⟩ := hs_div_spec f h1
  rw [hj]
  constructor
  · refine ⟨by omega, by omega, by omega, ?_⟩
    have he : 2 ^ calculate_ls_div f * (2 * j) * f =
        2 * (2 ^ calculate_ls_div f * f * j) := by ring
    omega
  · intro h hh
    obtain ⟨hpar, h10, h1022, hvco⟩ := hh
    obtain ⟨k, rfl⟩ : ∃ k, h = 2 * k := ⟨h / 2, by omega⟩
    have he : 2 ^ calculate_ls_div f * (2 * k) * f =
        2 * (2 ^ calculate_ls_div f * f * k) := by ring
    have hk : 1040000000 ≤ 2 ^ calculate_ls_div f * f * k := by omega
    have := hmin k (by omega) hk
    omega

theorem claim_C6_witness :
    IsLeast {h : ℕ | h % 2 = 0 ∧ 10 ≤ h ∧ h ≤ 1022 ∧
        2080000000 ≤ 2 ^ calculate_ls_div 10000000 * h * 10000000}
      (calculate_hs_div 10000000 (calculate_ls_div 10000000)) :=
  claim_C6_hs_div_least 10000000 (by norm_num) (by norm_num)

/-- C2: for every integer frequency in `[100000, 170000000]` the computed
dividers put the implied VCO frequency `2^ls · hs · f` inside
`[2080000000, 2500000000]`, with `hs` even and in `[10, 1022]`. -/
theorem claim_C2_vco_range (f : ℕ) (h1 : 100000 ≤ f) (h2 : f ≤ 170000000) :
    2080000000 ≤ 2 ^ calculate_ls_div f * calculate_hs_div f (calculate_ls_div f) * f ∧
      2 ^ calculate_ls_div f * calculate_hs_div f (calculate_ls_div f) * f ≤ 2500000000 ∧
      calculate_hs_div f (calculate_ls_div f) % 2 = 0 ∧
      10 ≤ calculate_hs_div f (calculate_ls_div f) ∧
      calculate_hs_div f (calculate_ls_div f) ≤ 1022 := by
  obtain ⟨j, hj, hj5, hj511, hjc, hmin⟩ := hs_div_spec f h1
  have hLb : 2 ^ calculate_ls_div f * f ≤ 170000000 ∨
      511 * (2 ^ calculate_ls_div f * f) ≤ 2079999999 := by
    by_cases hls0 : calculate_ls_div f = 0
    · left
      rw [hls0]
      omega
    · right
      obtain ⟨-, -, q3⟩ := ls_div_char f h1
      obtain ⟨m, hm⟩ : ∃ m, calculate_ls_div f = m + 1 := ⟨calculate_ls_div f - 1, by omega⟩
      have hq := q3 m (by omega)
      rw [hm]
      have he : 511 * (2 ^ (m + 1) * f) = 1022 * 2 ^ m * f := by ring
      omega
  have hup := hs_half_upper (2 ^ calculate_ls_div f * f) j hLb hj5 hjc hmin
  rw [hj]
  have he : 2 ^ calculate_ls_div f * (2 * j) * f =
      2 * (2 ^ calculate_ls_div f * f * j) := by ring
  refine ⟨by omega, by omega, by omega, by omega, by omega⟩

theorem claim_C2_witness :
    2080000000 ≤ 2 ^ calculate_ls_div 10000000 *
        calculate_hs_div 10000000 (calculate_ls_div 10000000) * 10000000 ∧
      2 ^ calculate_ls_div 10000000 *
          calculate_hs_div 10000000 (calculate_ls_div 10000000) * 10000000 ≤ 2500000000 ∧
      calculate_hs_div 10000000 (calculate_ls_div 10000000) % 2 = 0 ∧
      10 ≤ calculate_hs_div 10000000 (calculate_ls_div 10000000) ∧
      calculate_hs_div 10000000 (calculate_ls_div 10000000) ≤ 1022 :=
  claim_C2_vco_range 10000000 (by norm_num) (by norm_num)

end Py514
namespace Py514

def unpack5 (r : ℕ × ℕ × ℕ × ℕ × ℕ) : ℕ × ℕ :=
  (unpack_m_int r.2.2.2.1 r.2.2.2.2, unpack_m_frac r.1 r.2.1 r.2.2.1 r.2.2.2.1)

lemma and255 (x : ℕ) : x &&& 255 = x % 256 := by
  have h := Nat.and_pow_two_sub_one_eq_mod x 8
  norm_num at h
  exact h

lemma and31 (x : ℕ) : x &&& 31 = x % 32 := by
  have h := Nat.and_pow_two_sub_one_eq_mod x 5
  norm_num at h
  exact h

lemma and7 (x : ℕ) : x &&& 7 = x % 8 := by
  have h := Nat.and_pow_two_sub_one_eq_mod x 3
  norm_num at h
  exact h

lemma and63 (x : ℕ) : x &&& 63 = x % 64 := by
  have h := Nat.and_pow_two_sub_one_eq_mod x 6
  norm_num at h
  exact h

/-- C3 counterexample: the 9-bit multiplier integer `256` does not survive the
pack/unpack round trip (`reg09` is packed from six bits of `m_int` but the
read-back masks it with `0x1F`, dropping bit 8). -/
theorem claim_C3_counterexample : unpack5 (pack5 256 0) ≠ (256, 0) := by decide

/-- C3 (amended): for `m_int < 2^8` and `m_frac < 2^29`, packing the
multiplier into registers 5–9 and unpacking them as the small-change
read-back does reproduces the pair exactly. -/
theorem claim_C3_roundtrip (m_int m_frac : ℕ) (hi : m_int < 2 ^ 8)
    (hf : m_frac < 2 ^ 29) : unpack5 (pack5 m_int m_frac) = (m_int, m_frac) := by
  simp only [pack5, unpack5, unpack_m_int, unpack_m_frac,
    Nat.shiftRight_eq_div_pow, Nat.shiftLeft_eq, and255, and31, and7, and63]
  norm_num
  constructor
  · omega
  · omega

theorem claim_C3_witness :
    (5 : ℕ) < 2 ^ 8 ∧ (100 : ℕ) < 2 ^ 29 ∧ unpack5 (pack5 5 100) = (5, 100) :=
  ⟨by decide, by decide, claim_C3_roundtrip 5 100 (by decide) (by decide)⟩

end Py514
namespace Py514

/-- The real multiplier value `m_int + m_frac / 2^29` (line 346).  Every value
involved is exactly representable in the source's double precision (38
significant bits for in-range multipliers), and none of the four breakpoint
literals rounds across a representable multiplier, so exact rational
arithmetic reproduces the source's comparisons. -/
def mval (m_int m_frac : ℕ) : ℚ :=
  (m_int : ℚ) + (m_frac : ℚ) / ((1 <<< 29 : ℕ) : ℚ)

def calculate_lp (m_int m_frac : ℕ) : ℕ × ℕ :=
  let m := mval m_int m_frac
  if m < 65.259980246 then (2, 2)
  else if m < 67.859763463 then (2, 3)
  else if m < 72.937624981 then (3, 3)
  else if m < 75.843265046 then (3, 4)
  else (4, 4)

/-- Follows the spec's words (§8): "boundary inputs exactly at a breakpoint
select the lower-numbered bucket", i.e. non-strict comparisons at the
breakpoints; to be compared with `calculate_lp`. -/
def select_filter_le (m_int m_frac : ℕ) : ℕ × ℕ :=
  let m := mval m_int m_frac
  if m ≤ 65.259980246 then (2, 2)
  else if m ≤ 67.859763463 then (2, 3)
  else if m ≤ 72.937624981 then (3, 3)
  else if m ≤ 75.843265046 then (3, 4)
  else (4, 4)

lemma mval_eq (a b : ℕ) : mval a b = ((a * 2 ^ 29 + b : ℕ) : ℚ) / 2 ^ 29 := by
  unfold mval
  push_cast [Nat.shiftLeft_eq]
  rw [eq_div_iff (by norm_num : ((2 : ℚ) ^ 29) ≠ 0)]
  ring

/-- No representable multiplier value is exactly equal to a loop-filter
breakpoint: each breakpoint times `2^29` is a rational with denominator
`5^9`. -/
lemma mval_ne_breakpoints (a b : ℕ) :
    mval a b ≠ 65.259980246 ∧ mval a b ≠ 67.859763463 ∧
      mval a b ≠ 72.937624981 ∧ mval a b ≠ 75.843265046 := by
  refine ⟨fun h => ?_, fun h => ?_, fun h => ?_, fun h => ?_⟩ <;>
    rw [mval_eq] at h <;>
    rw [div_eq_iff (by norm_num : ((2 : ℚ) ^ 29) ≠ 0)] at h
  · have h2 : ((a * 2 ^ 29 + b : ℕ) : ℚ) * 1000000000 = 35036185111772004352 := by
      rw [h]; norm_num
    have h3 : (a * 2 ^ 29 + b) * 1000000000 = 35036185111772004352 := by
      exact_mod_cast h2
    omega
  · have h2 : ((a * 2 ^ 29 + b : ℕ) : ℚ) * 1000000000 = 36431933098485088256 := by
      rw [h]; norm_num
    have h3 : (a * 2 ^ 29 + b) * 1000000000 = 36431933098485088256 := by
      exact_mod_cast h2
    omega
  · have h2 : ((a * 2 ^ 29 + b : ℕ) : ℚ) * 1000000000 = 39158089242663452672 := by
      rw [h]; norm_num
    have h3 : (a * 2 ^ 29 + b) * 1000000000 = 39158089242663452672 := by
      exact_mod_cast h2
    omega
  · have h2 : ((a * 2 ^ 29 + b : ℕ) : ℚ) * 1000000000 = 40718042874303741952 := by
      rw [h]; norm_num
    have h3 : (a * 2 ^ 29 + b) * 1000000000 = 40718042874303741952 := by
      exact_mod_cast h2
    omega

/-- C7: the Loop-Filter Selector is monotone non-decreasing (componentwise) in
the real multiplier value, and inputs exactly at a breakpoint select the
lower-numbered bucket (the strict and non-strict threshold selectors agree on
every representable input, because no representable multiplier hits a
breakpoint exactly). -/
theorem claim_C7_lp_monotone_boundary :
    (∀ a1 b1 a2 b2 : ℕ, mval a1 b1 ≤ mval a2 b2 →
      (calculate_lp a1 b1).1 ≤ (calculate_lp a2 b2).1 ∧
        (calculate_lp a1 b1).2 ≤ (calculate_lp a2 b2).2) ∧
    ∀ a b : ℕ, calculate_lp a b = select_filter_le a b := by
  constructor
  · intro a1 b1 a2 b2 hm
    simp only [calculate_lp]
    split_ifs <;>
      first
        | (exfalso; linarith)
        | (constructor <;> norm_num)
  · intro a b
    obtain ⟨n1, n2, n3, n4⟩ := mval_ne_breakpoints a b
    simp only [calculate_lp, select_filter_le]
    split_ifs <;>
      first
        | rfl
        | (exfalso
           first
             | exact absurd (lt_of_le_of_ne (by assumption) n1) (by assumption)
             | exact absurd (lt_of_le_of_ne (by assumption) n2) (by assumption)
             | exact absurd (lt_of_le_of_ne (by assumption) n3) (by assumption)
             | exact absurd (lt_of_le_of_ne (by assumption) n4) (by assumption)
             | exact absurd (le_of_lt (by assumption)) (by assumption))

theorem claim_C7_witness :
    (mval 65 0 ≤ mval 66 0 ∧
      (calculate_lp 65 0).1 ≤ (calculate_lp 66 0).1 ∧
        (calculate_lp 65 0).2 ≤ (calculate_lp 66 0).2) ∧
    calculate_lp 70 0 = select_filter_le 70 0 :=
  ⟨⟨by norm_num [mval, Nat.shiftLeft_eq],
    claim_C7_lp_monotone_boundary.1 65 0 66 0 (by norm_num [mval, Nat.shiftLeft_eq])⟩,
   claim_C7_lp_monotone_boundary.2 70 0⟩

end Py514
namespace Py514

/-- The Clock Programmer's cached programmed state: `__m_int`, `__m_frac`,
`__freq` (initialised to `-1`, `-1`, `0.0` in `__init__`, overwritten at the
end of `set_freq_large`, lines 225-227). -/
structure DriverState where
  m_int : ℤ
  m_frac : ℤ
  freq : ℚ
deriving DecidableEq

/-- Outcome of `set_freq_small`: the cached state afterwards, the
`(register, value)` writes issued in order, and the `ValueError` payload (the
expected and the read-back `(m_int, m_frac)` pairs) when raised. -/
structure SmallChangeResult where
  state : DriverState
  writes : List (ℕ × ℕ)
  error : Option ((ℤ × ℤ) × (ℤ × ℤ))
deriving DecidableEq

/-- `set_freq_small` (lines 230-277), as a function of the cached state, the
five register bytes read back from the chip, and the requested frequency. -/
def set_freq_small (st : DriverState) (reg05 reg06 reg07 reg08 reg09 : ℕ)
    (freq : ℚ) : SmallChangeResult :=
  let m_frac := unpack_m_frac reg05 reg06 reg07 reg08
  let m_int := unpack_m_int reg08 reg09
  let _m_old : ℚ := (m_int : ℚ) + (m_frac : ℚ) / ((1 <<< 29 : ℕ) : ℚ)
  if (m_frac : ℤ) = st.m_frac ∧ (m_int : ℤ) = st.m_int then
    let _m_new : ℚ := _m_old * freq / st.freq
    let w := pack5 m_int m_frac
    { state := st,
      writes := [(REG_M_FRAC1, w.1), (REG_M_FRAC2, w.2.1), (REG_M_FRAC3, w.2.2.1),
                 (REG_M_INT_FRAC, w.2.2.2.1), (REG_M_INT, w.2.2.2.2)],
      error := none }
  else
    { state := st, writes := [],
      error := some ((st.m_int, st.m_frac), ((m_int : ℤ), (m_frac : ℤ))) }

/-- C4: `set_freq_small` raises exactly when the multiplier reconstructed from
the read-back differs from the cached one; the error carries both pairs and no
register write is issued in that case. -/
theorem claim_C4_mismatch_error (st : DriverState) (r5 r6 r7 r8 r9 : ℕ)
    (freq : ℚ) :
    ((set_freq_small st r5 r6 r7 r8 r9 freq).error.isSome = true ↔
      ¬ ((unpack_m_frac r5 r6 r7 r8 : ℤ) = st.m_frac ∧
         (unpack_m_int r8 r9 : ℤ) = st.m_int)) ∧
    ((set_freq_small st r5 r6 r7 r8 r9 freq).error.isSome = true →
      (set_freq_small st r5 r6 r7 r8 r9 freq).writes = [] ∧
      (set_freq_small st r5 r6 r7 r8 r9 freq).error =
        some ((st.m_int, st.m_frac),
          ((unpack_m_int r8 r9 : ℤ), (unpack_m_frac r5 r6 r7 r8 : ℤ)))) := by
  by_cases h : (unpack_m_frac r5 r6 r7 r8 : ℤ) = st.m_frac ∧
      (unpack_m_int r8 r9 : ℤ) = st.m_int
  · simp [set_freq_small, h]
  · simp [set_freq_small, h]

/-- C4 witness: the spec's state-mismatch test — cached `(5, 100)`, read-back
decoding to `(6, 100)` — raises with both pairs reported and no writes. -/
theorem claim_C4_witness :
    (set_freq_small ⟨5, 100, 10000000⟩ 100 0 0 192 0 10000000).writes = [] ∧
    (set_freq_small ⟨5, 100, 10000000⟩ 100 0 0 192 0 10000000).error =
      some ((5, 100), (6, 100)) := by
  have h := claim_C4_mismatch_error ⟨5, 100, 10000000⟩ 100 0 0 192 0 10000000
  exact h.2 (by decide)

/-- C8: a small frequency change never mutates the cached programmed state,
whether it writes the multiplier registers or raises the mismatch error. -/
theorem claim_C8_cache_preserved (st : DriverState) (r5 r6 r7 r8 r9 : ℕ)
    (freq : ℚ) : (set_freq_small st r5 r6 r7 r8 r9 freq).state = st := by
  by_cases h : (unpack_m_frac r5 r6 r7 r8 : ℤ) = st.m_frac ∧
      (unpack_m_int r8 r9 : ℤ) = st.m_int
  · simp [set_freq_small, h]
  · simp [set_freq_small, h]

/-- Modelled from the spec: §4.3 (small change, step 3) prescribes splitting
`m_new = m_old × new_freq / cached_freq` into integer and 29-bit fractional
parts before writing the five multiplier registers.  The code computes
`m_new` (line 254) but never splits it; the register bytes written at lines
258-263 are built from the read-back `m_int`/`m_frac` instead. -/
def spec_scaled_m (m_old freq cached_freq : ℚ) : ℤ × ℤ :=
  let m := m_old * freq / cached_freq
  (⌊m⌋, ⌊(m - (⌊m⌋ : ℚ)) * 2 ^ 29⌋)

/-- C1 (code-bug evidence): with cached multiplier `(65, 0)` at 10 MHz, a
matching read-back, and a request for 10.01 MHz, the bytes written are the
encoding of the old multiplier `(65, 0)`, while the spec's scaled multiplier
is `(65, 34896609)`, whose encoding differs. -/
theorem claim_C1_writes_old_multiplier :
    (set_freq_small ⟨65, 0, 10000000⟩ 0 0 0 32 8 10010000).writes =
      [(5, 0), (6, 0), (7, 0), (8, 32), (9, 8)] ∧
    spec_scaled_m 65 10010000 10000000 = (65, 34896609) ∧
    pack5 65 34896609 ≠ pack5 65 0 := by
  refine ⟨by decide, ?_, by decide⟩
  norm_num [spec_scaled_m, Prod.ext_iff]

/-- Python-call view of `write_to_register(self, reg_number, value,
verify=False)` (line 95): two required positional parameters; a call
supplying fewer raises `TypeError` before any bus traffic.  A successful call
carries the `(register, value)` pair that reaches the bus. -/
def call_write_to_register : List ℕ → Except String (ℕ × ℕ)
  | [reg_number, value] => Except.ok (reg_number, value)
  | [reg_number, value, _verify] => Except.ok (reg_number, value)
  | _ => Except.error "TypeError"

def RESET : ℕ := 0x80

/-- `reset` (lines 148-153) passes only `self.__RESET` to
`write_to_register`, omitting the required `value` argument. -/
def reset : Except String (ℕ × ℕ) := call_write_to_register [RESET]

/-- C10: every invocation of `reset` raises `TypeError` before any register
write reaches the bus; in particular the reset register is never written. -/
theorem claim_C10_reset_type_error : reset = Except.error "TypeError" := rfl

end Py514
namespace Py514

/-- Round a rational to the nearest integer, ties to even. -/
def roundNearestEven (s : ℚ) : ℤ :=
  if s - (⌊s⌋ : ℚ) < 1 / 2 then ⌊s⌋
  else if 1 / 2 < s - (⌊s⌋ : ℚ) then ⌊s⌋ + 1
  else if ⌊s⌋ % 2 = 0 then ⌊s⌋ else ⌊s⌋ + 1

/-- IEEE-754 binary64 rounding of a positive rational to 53 significant
bits, round-to-nearest ties-to-even, with unbounded exponent (this agrees
with binary64 on the normal non-overflowing range the driver uses). -/
def roundDouble (x : ℚ) : ℚ :=
  if x ≤ 0 then x
  else (roundNearestEven (x / 2 ^ (Int.log 2 x - 52)) : ℚ) * 2 ^ (Int.log 2 x - 52)

lemma roundNearestEven_close (s : ℚ) : |(roundNearestEven s : ℚ) - s| ≤ 1 / 2 := by
  unfold roundNearestEven
  have h0 := Int.floor_le s
  have h1 := Int.lt_floor_add_one s
  split_ifs with a b c <;> push_cast <;> rw [abs_le] <;> constructor <;> linarith

lemma roundDouble_err (x : ℚ) (hx : 0 < x) :
    |roundDouble x - x| ≤ 2 ^ (Int.log 2 x - 53) := by
  rw [roundDouble, if_neg (not_le.mpr hx)]
  have hz : ((2 : ℚ) ^ (Int.log 2 x - 52)) ≠ 0 := zpow_ne_zero _ (by norm_num)
  have hpos : (0 : ℚ) < 2 ^ (Int.log 2 x - 52) := by positivity
  have hsplit : (roundNearestEven (x / 2 ^ (Int.log 2 x - 52)) : ℚ) *
      2 ^ (Int.log 2 x - 52) - x =
      ((roundNearestEven (x / 2 ^ (Int.log 2 x - 52)) : ℚ) -
        x / 2 ^ (Int.log 2 x - 52)) * 2 ^ (Int.log 2 x - 52) := by
    field_simp
  rw [hsplit, abs_mul, abs_of_pos hpos]
  have hb := roundNearestEven_close (x / 2 ^ (Int.log 2 x - 52))
  have h53 : (2 : ℚ) ^ (Int.log 2 x - 53) = 1 / 2 * 2 ^ (Int.log 2 x - 52) := by
    rw [show Int.log 2 x - 53 = Int.log 2 x - 52 - 1 by ring,
      zpow_sub₀ (by norm_num : (2 : ℚ) ≠ 0) (Int.log 2 x - 52) 1]
    ring
  rw [h53]
  exact mul_le_mul_of_nonneg_right hb (le_of_lt hpos)

lemma roundDouble_nat (k : ℕ) (h0 : 0 < k) (hk : (k : ℚ) < 2 ^ (53 : ℤ)) :
    roundDouble (k : ℚ) = k := by
  have hkpos : (0 : ℚ) < k := by exact_mod_cast h0
  rw [roundDouble, if_neg (not_le.mpr hkpos)]
  have he0 : 0 ≤ Int.log 2 (k : ℚ) := by
    rw [Int.log_natCast]
    positivity
  have he53 : Int.log 2 (k : ℚ) < 53 := by
    have h2 : ((2 : ℕ) : ℚ) ^ (53 : ℤ) = (2 : ℚ) ^ (53 : ℤ) := by norm_num
    exact (Int.lt_zpow_iff_log_lt (by norm_num) hkpos).mp (by rw [h2]; exact hk)
  obtain ⟨d, hd⟩ : ∃ d : ℕ, 52 - Int.log 2 (k : ℚ) = (d : ℤ) :=
    ⟨(52 - Int.log 2 (k : ℚ)).toNat, by omega⟩
  have hs : (k : ℚ) / 2 ^ (Int.log 2 (k : ℚ) - 52) = ((k * 2 ^ d : ℕ) : ℚ) := by
    rw [show Int.log 2 (k : ℚ) - 52 = -(d : ℤ) by omega, zpow_neg, div_inv_eq_mul,
      zpow_natCast]
    push_cast
    ring
  have hrne : roundNearestEven ((k * 2 ^ d : ℕ) : ℚ) = ((k * 2 ^ d : ℕ) : ℤ) := by
    unfold roundNearestEven
    rw [Int.floor_natCast]
    norm_num
  rw [hs, hrne, show Int.log 2 (k : ℚ) - 52 = -(d : ℤ) by omega, zpow_neg,
    zpow_natCast]
  push_cast
  field_simp

end Py514
namespace Py514

/-- `calculate_m` (lines 330-338).  The conversions and the two products are
exact in double precision throughout the solver's ranges (the VCO product
needs at most 43 bits), the subtraction of the integer part and the final
scaling by `2^29` are exact as well, so the double-precision division is the
one rounding step; `int()` on the non-negative values is `⌊·⌋`. -/
def calculate_m (ls_div hs_div freq xtal_freq : ℕ) : ℤ × ℤ :=
  let m_t : ℚ := roundDouble ((((1 <<< ls_div) * hs_div * freq : ℕ) : ℚ) / (xtal_freq : ℚ))
  let m_int : ℤ := ⌊m_t⌋
  let m_frac : ℤ := ⌊(m_t - (m_int : ℚ)) * ((1 <<< 29 : ℕ) : ℚ)⌋
  (m_int, m_frac)

lemma log_c9 : Int.log 2 ((2082484364 : ℚ) / 31980000) = 6 := by
  have hpos : (0 : ℚ) < 2082484364 / 31980000 := by norm_num
  have hge : (6 : ℤ) ≤ Int.log 2 ((2082484364 : ℚ) / 31980000) := by
    rw [← Int.zpow_le_iff_le_log (by norm_num) hpos]
    norm_num
  have hlt : Int.log 2 ((2082484364 : ℚ) / 31980000) < 7 := by
    rw [← Int.lt_zpow_iff_log_lt (by norm_num) hpos]
    norm_num
  omega

lemma roundDouble_c9 :
    roundDouble ((2082484364 : ℚ) / 31980000) = 4582295480434688 / 2 ^ 46 := by
  rw [roundDouble, if_neg (by norm_num), log_c9]
  have hs : (2082484364 : ℚ) / 31980000 / 2 ^ ((6 : ℤ) - 52) =
      4579431545759416188928 / 999375 := by
    rw [show (6 : ℤ) - 52 = -(46 : ℤ) by norm_num, zpow_neg, div_inv_eq_mul]
    norm_num
  rw [hs]
  have hfl : ⌊(4579431545759416188928 : ℚ) / 999375⌋ = 4582295480434687 := by
    rw [Int.floor_eq_iff]
    constructor <;> norm_num
  unfold roundNearestEven
  rw [hfl]
  rw [if_neg (by norm_num), if_pos (by norm_num)]
  rw [show (6 : ℤ) - 52 = -(46 : ℤ) by norm_num, zpow_neg]
  norm_num

lemma calculate_m_c9 : calculate_m 1 746 1395767 31980000 = (65, 63530799) := by
  have harg : ((((1 <<< 1) * 746 * 1395767 : ℕ) : ℚ) / ((31980000 : ℕ) : ℚ)) =
      (2082484364 : ℚ) / 31980000 := by
    norm_num [Nat.shiftLeft_eq]
  simp only [calculate_m]
  rw [harg, roundDouble_c9]
  have hm_int : ⌊(4582295480434688 : ℚ) / 2 ^ 46⌋ = 65 := by
    rw [Int.floor_eq_iff]
    constructor <;> norm_num
  rw [hm_int]
  norm_num [Nat.shiftLeft_eq, Int.floor_eq_iff]

/-- C9 counterexample: at `ls_div = 1`, `hs_div = 746`, `freq = 1395767`,
`xtal_freq = 31980000` the code returns `m_frac = 63530799`, one above the
exact `⌊(m − ⌊m⌋)·2^29⌋ = 63530798`: the double-precision quotient rounds up
across a multiple of `2^(−29)`. -/
theorem claim_C9_counterexample :
    calculate_m 1 746 1395767 31980000 ≠
      (⌊(2 ^ 1 * 746 * 1395767 : ℚ) / 31980000⌋,
       ⌊((2 ^ 1 * 746 * 1395767 : ℚ) / 31980000 -
           (⌊(2 ^ 1 * 746 * 1395767 : ℚ) / 31980000⌋ : ℚ)) * 2 ^ 29⌋) := by
  have hxv : (2 ^ 1 * 746 * 1395767 : ℚ) = 2082484364 := by norm_num
  rw [calculate_m_c9, hxv]
  have hf1 : ⌊(2082484364 : ℚ) / 31980000⌋ = 65 := by
    rw [Int.floor_eq_iff]
    constructor <;> norm_num
  rw [hf1]
  have hf2 : ⌊((2082484364 : ℚ) / 31980000 - ((65 : ℤ) : ℚ)) * 2 ^ 29⌋ =
      63530798 := by
    rw [Int.floor_eq_iff]
    constructor <;> norm_num
  rw [hf2]
  decide

end Py514
namespace Py514

lemma floor_close (x y : ℚ) (h : |x - y| ≤ 1) : |⌊x⌋ - ⌊y⌋| ≤ 1 := by
  rw [abs_le] at h ⊢
  have hxy : ⌊x⌋ ≤ ⌊y + 1⌋ := Int.floor_le_floor (by linarith)
  have hyx : ⌊y⌋ ≤ ⌊x + 1⌋ := Int.floor_le_floor (by linarith)
  rw [Int.floor_add_one] at hxy hyx
  omega

/-- C9 (amended): over the solver's ranges with the driver's crystal
frequency, `calculate_m` returns the exact `⌊m⌋` for the integer part, and a
fractional part within one unit of the exact `⌊(m − ⌊m⌋)·2^29⌋` (the
double-precision quotient can shift the fractional floor by one). -/
theorem claim_C9_calculate_m_floor (ls hs freq : ℕ) (h1 : ls ≤ 5)
    (h2 : 10 ≤ hs) (h3 : hs ≤ 1022) (h4 : 100000 ≤ freq)
    (h5 : freq ≤ 250000000) :
    (calculate_m ls hs freq 31980000).1 =
      ⌊((2 ^ ls * hs * freq : ℕ) : ℚ) / (31980000 : ℚ)⌋ ∧
    |(calculate_m ls hs freq 31980000).2 -
      ⌊(((2 ^ ls * hs * freq : ℕ) : ℚ) / (31980000 : ℚ) -
        (⌊((2 ^ ls * hs * freq : ℕ) : ℚ) / (31980000 : ℚ)⌋ : ℚ)) * 2 ^ 29⌋| ≤ 1 := by
  have hshift : (1 <<< ls) * hs * freq = 2 ^ ls * hs * freq := by
    rw [Nat.shiftLeft_eq, one_mul]
  have hcast : (((2 ^ ls * hs * freq : ℕ) : ℚ) / ((31980000 : ℕ) : ℚ)) =
      ((2 ^ ls * hs * freq : ℕ) : ℚ) / (31980000 : ℚ) := by norm_num
  have hK : ((1 <<< 29 : ℕ) : ℚ) = 2 ^ 29 := by norm_num [Nat.shiftLeft_eq]
  simp only [calculate_m, hshift, hcast, hK]
  set m : ℚ := ((2 ^ ls * hs * freq : ℕ) : ℚ) / (31980000 : ℚ) with hm
  have hNlow : 1000000 ≤ 2 ^ ls * hs * freq := by
    calc 1000000 = 1 * 10 * 100000 := by norm_num
    _ ≤ 2 ^ ls * hs * freq :=
        Nat.mul_le_mul (Nat.mul_le_mul Nat.one_le_two_pow h2) h4
  have hNhigh : 2 ^ ls * hs * freq ≤ 8176000000000 := by
    calc 2 ^ ls * hs * freq ≤ 2 ^ 5 * 1022 * 250000000 :=
        Nat.mul_le_mul (Nat.mul_le_mul (Nat.pow_le_pow_right (by norm_num) h1) h3) h5
    _ = 8176000000000 := by norm_num
  have hmpos : 0 < m := by
    rw [hm]
    apply div_pos _ (by norm_num)
    exact_mod_cast Nat.lt_of_lt_of_le (by norm_num) hNlow
  have hlog17 : Int.log 2 m ≤ 17 := by
    have hlt : Int.log 2 m < 18 := by
      rw [← Int.lt_zpow_iff_log_lt (by norm_num) hmpos]
      rw [hm, div_lt_iff₀ (by norm_num)]
      have hNc : ((2 ^ ls * hs * freq : ℕ) : ℚ) ≤ 8176000000000 := by
        exact_mod_cast hNhigh
      have h2pow : (((2 : ℕ) : ℚ)) ^ (18 : ℤ) * 31980000 = 8383365120000 := by
        norm_num
      linarith
    omega
  have herr : |roundDouble m - m| ≤ 1 / 68719476736 := by
    have h := roundDouble_err m hmpos
    have hle : (2 : ℚ) ^ (Int.log 2 m - 53) ≤ 2 ^ (-(36 : ℤ)) :=
      zpow_le_zpow_right₀ (by norm_num) (by omega)
    have hval : (2 : ℚ) ^ (-(36 : ℤ)) = 1 / 68719476736 := by
      rw [zpow_neg]
      norm_num
    calc |roundDouble m - m| ≤ 2 ^ (Int.log 2 m - 53) := h
    _ ≤ 2 ^ (-(36 : ℤ)) := hle
    _ = 1 / 68719476736 := hval
  by_cases hdvd : 31980000 ∣ 2 ^ ls * hs * freq
  · -- the quotient is an integer and is rounded exactly
    have hcast2 : ((31980000 : ℕ) : ℚ) = (31980000 : ℚ) := by norm_num
    have hmk : m = ((2 ^ ls * hs * freq / 31980000 : ℕ) : ℚ) := by
      rw [hm, Nat.cast_div hdvd (by rw [hcast2]; norm_num), hcast2]
    have hk0 : 0 < 2 ^ ls * hs * freq / 31980000 :=
      Nat.div_pos (Nat.le_of_dvd (by omega) hdvd) (by norm_num)
    have hk53 : ((2 ^ ls * hs * freq / 31980000 : ℕ) : ℚ) < 2 ^ (53 : ℤ) := by
      have hle : 2 ^ ls * hs * freq / 31980000 ≤ 8176000000000 :=
        le_trans (Nat.div_le_self _ _) hNhigh
      have : ((2 ^ ls * hs * freq / 31980000 : ℕ) : ℚ) ≤ 8176000000000 := by
        exact_mod_cast hle
      have h53 : (8176000000000 : ℚ) < 2 ^ (53 : ℤ) := by norm_num
      linarith
    rw [hmk, roundDouble_nat _ hk0 hk53]
    constructor
    · rfl
    · simp
  · -- the quotient is not an integer: its distance to any integer is ≥ 1/D
    set t : ℤ := ⌊m⌋ with ht
    set q : ℚ := roundDouble m with hq
    have hfr0 : 0 ≤ m - (t : ℚ) := by
      have := Int.floor_le m
      linarith
    have hfr1 : m - (t : ℚ) < 1 := by
      have := Int.lt_floor_add_one m
      push_cast at this
      linarith
    have hceq : (m - (t : ℚ)) * 31980000 =
        (((2 ^ ls * hs * freq : ℕ) : ℤ) - t * 31980000 : ℤ) := by
      push_cast
      rw [hm]
      field_simp
      ring
    set c : ℤ := ((2 ^ ls * hs * freq : ℕ) : ℤ) - t * 31980000 with hc
    have hc0 : 0 ≤ c := by
      have : (0 : ℚ) ≤ (c : ℚ) := by
        rw [← hceq]
        positivity
      exact_mod_cast this
    have hcD : c < 31980000 := by
      have : (c : ℚ) < 31980000 := by
        rw [← hceq]
        nlinarith
      exact_mod_cast this
    have hcne : c ≠ 0 := by
      intro h0
      apply hdvd
      have ht0 : 0 ≤ t := Int.floor_nonneg.mpr (le_of_lt hmpos)
      refine ⟨t.toNat, ?_⟩
      have hNeq : ((2 ^ ls * hs * freq : ℕ) : ℤ) = ((31980000 * t.toNat : ℕ) : ℤ) := by
        omega
      exact_mod_cast hNeq
    have hc1 : 1 ≤ c := by omega
    have hfrlow : 1 / 31980000 ≤ m - (t : ℚ) := by
      have hcq : (1 : ℚ) ≤ (c : ℚ) := by exact_mod_cast hc1
      nlinarith
    have hfrhigh : m - (t : ℚ) ≤ 1 - 1 / 31980000 := by
      have hcq : (c : ℚ) ≤ 31979999 := by exact_mod_cast (by omega : c ≤ 31979999)
      nlinarith
    have habs := abs_le.mp herr
    have hql : (t : ℚ) ≤ q := by
      rw [hq]
      linarith [habs.1]
    have hqu : q < (t : ℚ) + 1 := by
      rw [hq]
      linarith [habs.2]
    have hfq : ⌊q⌋ = t := by
      rw [Int.floor_eq_iff]
      exact ⟨hql, hqu⟩
    rw [hq] at hfq
    rw [hfq]
    refine ⟨rfl, ?_⟩
    apply floor_close
    have hsplit : (roundDouble m - (t : ℚ)) * 2 ^ 29 - (m - (t : ℚ)) * 2 ^ 29 =
        (roundDouble m - m) * 2 ^ 29 := by ring
    rw [hsplit, abs_mul, abs_of_pos (by norm_num : (0 : ℚ) < 2 ^ 29)]
    calc |roundDouble m - m| * 2 ^ 29 ≤ 1 / 68719476736 * 2 ^ 29 := by
          have := abs_nonneg (roundDouble m - m)
          nlinarith
    _ ≤ 1 := by norm_num

theorem claim_C9_witness :
    (1 : ℕ) ≤ 5 ∧ 10 ≤ (746 : ℕ) ∧ (746 : ℕ) ≤ 1022 ∧ 100000 ≤ (1395767 : ℕ) ∧
      (1395767 : ℕ) ≤ 250000000 ∧
    ((calculate_m 1 746 1395767 31980000).1 =
        ⌊((2 ^ 1 * 746 * 1395767 : ℕ) : ℚ) / (31980000 : ℚ)⌋ ∧
      |(calculate_m 1 746 1395767 31980000).2 -
        ⌊(((2 ^ 1 * 746 * 1395767 : ℕ) : ℚ) / (31980000 : ℚ) -
          (⌊((2 ^ 1 * 746 * 1395767 : ℕ) : ℚ) / (31980000 : ℚ)⌋ : ℚ)) * 2 ^ 29⌋| ≤ 1) :=
  ⟨by norm_num, by norm_num, by norm_num, by norm_num, by norm_num,
    claim_C9_calculate_m_floor 1 746 1395767 (by norm_num) (by norm_num)
      (by norm_num) (by norm_num) (by norm_num)⟩

end Py514
